import Mathlib

/-!
Verification development for the STARK prover core (`src/proving_system/stark/src/prover.rs`).

The prover pipeline is shallowly embedded: field elements live in an arbitrary
decidable field `F`, polynomials are little-endian coefficient lists, the
Fiat-Shamir transcript is an explicit state (absorbed chunks plus a draw
counter) threaded through every round, and the deterministic challenge
derivation is a function parameter `chal : List F -> Nat -> F` (the spec's
determinism contract for the transcript: challenges are a function of the
absorbed data and of how many draws happened so far).

Components of the repository that are not part of the provided source
(the FFT/interpolation library, the Merkle tree, the transcript internals,
`fri_commit_phase`, `sample_z_ood`, `batch_sample_challenges`, `Domain`,
`Frame`) are modelled from the spec; each such definition carries a doc
comment saying so.
-/

set_option linter.unusedSectionVars false
set_option linter.unusedVariables false

namespace StarkProver

/-- Fiat-Shamir transcript state.  Modelled from the spec: an append-only
state absorbing field elements (the source absorbs their big-endian bytes;
byte encoding is injective so we keep the field elements themselves) and
deterministically emitting challenges.  `drawn` counts how many challenges
have been emitted since the start, so that consecutive draws differ. -/
structure Xcript (F : Type) where
  absorbed : List F
  drawn : Nat
  deriving Repr, DecidableEq

variable {F : Type} [Field F] [DecidableEq F]

/-- Absorb one field element (the source's `transcript.append(bytes)`). -/
def appendF (t : Xcript F) (x : F) : Xcript F :=
  { absorbed := t.absorbed ++ [x], drawn := t.drawn }

/-- Absorb a list of field elements, left to right. -/
def appendList (t : Xcript F) (l : List F) : Xcript F :=
  l.foldl appendF t

/-- Draw one field challenge (the source's `transcript_to_field`), using the
deterministic challenge function `chal`. -/
def sampleF (chal : List F → Nat → F) (t : Xcript F) : F × Xcript F :=
  (chal t.absorbed t.drawn, { absorbed := t.absorbed, drawn := t.drawn + 1 })

/-- Draw one index challenge (the source's `transcript_to_usize`), using the
deterministic index-challenge function `chalU`. -/
def sampleU (chalU : List F → Nat → Nat) (t : Xcript F) : Nat × Xcript F :=
  (chalU t.absorbed t.drawn, { absorbed := t.absorbed, drawn := t.drawn + 1 })

/-- Modelled from the spec: `batch_sample_challenges n transcript` draws `n`
field challenges in sequence (the source function lives outside the provided
prover file; the spec describes sampling challenge vectors from the
transcript). -/
def batch_sample_challenges (chal : List F → Nat → F) :
    Nat → Xcript F → List F × Xcript F
  | 0, t => ([], t)
  | n + 1, t =>
      let s := sampleF chal t
      let rest := batch_sample_challenges chal n s.2
      (s.1 :: rest.1, rest.2)

theorem batch_sample_challenges_length (chal : List F → Nat → F) :
    ∀ (n : Nat) (t : Xcript F),
      (batch_sample_challenges chal n t).1.length = n := by
  intro n
  induction n with
  | zero => intro t; rfl
  | succ n ih =>
      intro t
      simp [batch_sample_challenges, ih]

theorem batch_sample_challenges_state (chal : List F → Nat → F) :
    ∀ (n : Nat) (t : Xcript F),
      (batch_sample_challenges chal n t).2 =
        { absorbed := t.absorbed, drawn := t.drawn + n } := by
  intro n
  induction n with
  | zero => intro t; rfl
  | succ n ih =>
      intro t
      simp only [batch_sample_challenges, ih, sampleF]
      congr 1
      omega

theorem batch_sample_challenges_getD (chal : List F → Nat → F) :
    ∀ (n : Nat) (t : Xcript F) (i : Nat), i < n →
      (batch_sample_challenges chal n t).1.getD i 0 =
        chal t.absorbed (t.drawn + i) := by
  intro n
  induction n with
  | zero => intro t i hi; omega
  | succ n ih =>
      intro t i hi
      cases i with
      | zero => simp [batch_sample_challenges, sampleF, List.getD]
      | succ i =>
          have hi' : i < n := by omega
          simp only [batch_sample_challenges, sampleF, List.getD_cons_succ]
          rw [ih _ i hi']
          congr 1
          show t.drawn + 1 + i = t.drawn + (i + 1)
          omega

theorem appendList_absorbed (t : Xcript F) (l : List F) :
    (appendList t l).absorbed = t.absorbed ++ l := by
  induction l generalizing t with
  | nil => simp [appendList]
  | cons x xs ih =>
      simp only [appendList, List.foldl_cons] at *
      rw [ih (appendF t x)]
      simp [appendF]

/-! ### Polynomials as little-endian coefficient lists

Modelled from the spec's data model (section 3): dense univariate
polynomials in coefficient form with addition, scalar multiplication,
evaluation, and exact division by a linear factor `X - a`. -/

/-- Horner evaluation of a coefficient list at a point. -/
def evalP (p : List F) (x : F) : F :=
  p.foldr (fun c acc => c + x * acc) 0

/-- Coefficientwise addition, keeping the longer tail. -/
def pAdd : List F → List F → List F
  | [], q => q
  | p, [] => p
  | a :: p, b :: q => (a + b) :: pAdd p q

/-- Scalar multiplication of a coefficient list. -/
def pSmul (c : F) (p : List F) : List F :=
  p.map (fun a => c * a)

/-- Coefficientwise negation. -/
def pNeg (p : List F) : List F :=
  p.map (fun a => -a)

/-- Coefficientwise subtraction. -/
def pSub (p q : List F) : List F :=
  pAdd p (pNeg q)

/-- Polynomial multiplication. -/
def pMul : List F → List F → List F
  | [], _ => []
  | a :: p, q => pAdd (pSmul a q) (0 :: pMul p q)

/-- Quotient of `p` by the linear factor `X - a` (synthetic division,
remainder discarded).  Modelled from the spec: division by a linear factor,
exact when the dividend vanishes at `a`. -/
def divLinear (p : List F) (a : F) : List F :=
  (p.reverse.foldl (fun (acc : List F × F) c => (acc.2 :: acc.1, c + a * acc.2)) ([], 0)).1

/-- Even-position coefficients: `p(X) = pEvenCoeffs p (X^2) + X * pOddCoeffs p (X^2)`.
Modelled from the spec: the even/odd decomposition used for the composition
polynomial split and for FRI folding. -/
def pEvenCoeffs : List F → List F
  | [] => []
  | [a] => [a]
  | a :: _ :: rest => a :: pEvenCoeffs rest

/-- Odd-position coefficients of a polynomial. -/
def pOddCoeffs : List F → List F
  | [] => []
  | [_] => []
  | _ :: b :: rest => b :: pOddCoeffs rest

/-- Modelled from the spec (section 4.6, step 2): one FRI folding step,
`P'(X) = P_even(X) + zeta * P_odd(X)`. -/
def foldPoly (p : List F) (zeta : F) : List F :=
  pAdd (pEvenCoeffs p) (pSmul zeta (pOddCoeffs p))

/-- Modelled from the spec: Lagrange interpolation over distinct points
(the external library's `Polynomial.interpolate` / inverse FFT; only its
input-output behaviour matters here). -/
def lagrangeInterpolate (xs ys : List F) : List F :=
  (List.range xs.length).foldl
    (fun acc i =>
      let xi := xs.getD i 0
      let basis := (List.range xs.length).foldl
        (fun b j =>
          if j = i then b
          else
            let xj := xs.getD j 0
            pSmul (xi - xj)⁻¹ (pMul b [-xj, 1]))
        [1]
      pAdd acc (pSmul (ys.getD i 0) basis))
    []

/-! ### Merkle commitments and proof structures

The Merkle tree and hash are external collaborators (spec section 2); they
are modelled from the spec as opaque-to-the-prover structures: a tree
remembers its leaf column, its root is computed by a root function passed
in as a capability parameter, and a positional authentication path is
abstracted to the opened position together with the leaf. -/

/-- Modelled from the spec: a Merkle tree over a leaf vector. -/
structure MTree (F : Type) where
  leaves : List F
  deriving Repr, DecidableEq

/-- Modelled from the spec: a positional authentication path, abstracted to
the position it opens and the leaf found there. -/
structure MProof (F : Type) where
  pos : Nat
  leaf : F
  deriving Repr, DecidableEq

/-- Modelled from the spec: `open(tree, idx)` returns the leaf and its
authentication path (the source's `get_proof_by_pos`). -/
def get_proof_by_pos (tree : MTree F) (idx : Nat) : MProof F :=
  { pos := idx, leaf := tree.leaves.getD idx 0 }

/-- Modelled from the spec: `batch_commit` builds one Merkle tree per column
and returns the trees and their roots; `mroot` is the capability computing a
root from the leaves. -/
def batch_commit (mroot : List F → F) (cols : List (List F)) :
    List (MTree F) × List F :=
  (cols.map (fun c => { leaves := c }), cols.map mroot)

/-- Trace table (spec section 3): a matrix stored as columns. -/
structure TraceTableM (F : Type) where
  cols : List (List F)
  deriving Repr, DecidableEq

/-- Row `i` of a trace table: one entry per column. -/
def getRowT (tt : TraceTableM F) (i : Nat) : List F :=
  tt.cols.map (fun c => c.getD i 0)

/-- Frame over a trace (the source's `Frame`): row-major data with a fixed
row width. -/
structure Frame (F : Type) where
  data : List F
  width : Nat
  deriving Repr, DecidableEq

/-- Row `m` of a frame (the source's `Frame::get_row`). -/
def Frame.getRow (fr : Frame F) (m : Nat) : List F :=
  (fr.data.drop (m * fr.width)).take fr.width

/-- A FRI layer (spec section 3): domain, evaluations, and the Merkle
commitment to the evaluations, kept here as its root. -/
structure FriLayer (F : Type) where
  domain : List F
  evaluations : List F
  root : F
  deriving Repr, DecidableEq

/-- One FRI query opening (the source's `FriDecommitment`). -/
structure FriDecommitment (F : Type) where
  layers_auth_paths_sym : List (MProof F)
  layers_evaluations_sym : List F
  first_layer_evaluation : F
  first_layer_auth_path : MProof F
  deriving Repr, DecidableEq

/-- The deep consistency check openings (the source's `DeepConsistencyCheck`). -/
structure DeepConsistencyCheck (F : Type) where
  lde_trace_merkle_proofs : List (MProof F)
  lde_composition_poly_proofs : List (MProof F)
  lde_trace_evaluations : List F
  lde_composition_poly_evaluations : List F
  deriving Repr, DecidableEq

/-- The assembled proof (the source's `StarkProof`). -/
structure StarkProof (F : Type) where
  lde_trace_merkle_roots : List F
  composition_poly_roots : List F
  fri_layers_merkle_roots : List F
  fri_last_value : F
  trace_ood_frame_evaluations : Frame F
  composition_poly_ood_evaluations : F × F
  deep_consistency_check : DeepConsistencyCheck F
  query_list : List (FriDecommitment F)
  deriving Repr, DecidableEq

/-! ### AIR interface and domain -/

/-- The AIR interface consumed by the prover (spec section 6), flattened:
context data plus the transition-constraint evaluator and the boundary
constraints `(column, row, value)`. -/
structure AirModel (F : Type) where
  trace_length : Nat
  trace_columns : Nat
  blowup_factor : Nat
  coset_offset : F
  fri_number_of_queries : Nat
  transition_offsets : List Nat
  transition_degrees : List Nat
  transition_exemptions : List Nat
  num_transition_constraints : Nat
  compute_transition : List (List F) → List F
  boundary_constraints : List (Nat × Nat × F)

/-- Modelled from the spec (section 3): the domain derived once per proof. -/
structure DomainM (F : Type) where
  root_order : Nat
  lde_root_order : Nat
  blowup_factor : Nat
  interpolation_domain_size : Nat
  coset_offset : F
  trace_primitive_root : F
  lde_primitive_root : F
  trace_roots_of_unity : List F
  lde_roots_of_unity_coset : List F

/-- Modelled from the spec (section 4.1): build the domain from the AIR
context; `prim_root k` is the field capability returning a primitive
`2^k`-th root of unity. -/
def Domain.new (prim_root : Nat → F) (air : AirModel F) : DomainM F :=
  let L := air.trace_length
  let b := air.blowup_factor
  let lro := Nat.log2 (L * b)
  let om := prim_root lro
  let g := om ^ b
  { root_order := Nat.log2 L
    lde_root_order := lro
    blowup_factor := b
    interpolation_domain_size := L
    coset_offset := air.coset_offset
    trace_primitive_root := g
    lde_primitive_root := om
    trace_roots_of_unity := (List.range L).map (fun i => g ^ i)
    lde_roots_of_unity_coset := (List.range (L * b)).map (fun i => air.coset_offset * om ^ i) }

/-- Modelled from the spec: `evaluate_offset_fft` evaluates a polynomial on
the coset `h * om^i`, `i < n` (the external FFT library; spec section 3:
offset coset FFT evaluation, and section 8 scenario S5). -/
def evaluate_offset_fft (om h : F) (n : Nat) (p : List F) : List F :=
  (List.range n).map (fun i => evalP p (h * om ^ i))

/-- The source's `evaluate_polynomial_on_lde_domain`: evaluate `p` on the
LDE coset of the domain via the offset FFT. -/
def evaluate_polynomial_on_lde_domain (d : DomainM F) (p : List F) : List F :=
  evaluate_offset_fft d.lde_primitive_root d.coset_offset
    (d.interpolation_domain_size * d.blowup_factor) p

/-! ### Round 1: trace commitment -/

/-- Outputs of round 1 (the source's `Round1`). -/
structure Round1M (F : Type) where
  trace_polys : List (List F)
  lde_trace : TraceTableM F
  lde_trace_merkle_trees : List (MTree F)
  lde_trace_merkle_roots : List F

/-- The source's `commit_original_trace` / `round_1_randomized_air_with_preprocessing`:
interpolate each trace column (the external `compute_trace_polys`, modelled
from the spec as interpolation over the trace subgroup), evaluate on the LDE
coset, and Merkle-commit each column.  The extended-trace commitment of the
source is a stub (`commit_extended_trace` is empty) and adds nothing. -/
def round_1 (mroot : List F → F) (trace : TraceTableM F) (d : DomainM F) : Round1M F :=
  let trace_polys := trace.cols.map (fun col => lagrangeInterpolate d.trace_roots_of_unity col)
  let lde_trace_evaluations := trace_polys.map (fun p => evaluate_polynomial_on_lde_domain d p)
  let tc := batch_commit mroot lde_trace_evaluations
  { trace_polys := trace_polys
    lde_trace := { cols := lde_trace_evaluations }
    lde_trace_merkle_trees := tc.1
    lde_trace_merkle_roots := tc.2 }

/-! ### Round 2: composition polynomial -/

/-- Outputs of round 2 (the source's `Round2`). -/
structure Round2M (F : Type) where
  composition_poly_even : List F
  lde_composition_poly_even_evaluations : List F
  composition_poly_odd : List F
  lde_composition_poly_odd_evaluations : List F
  composition_poly_merkle_trees : List (MTree F)
  composition_poly_roots : List F

/-- The round-2 challenge sampling of the source's `prove` (lines 474-491):
boundary alpha vector, boundary beta vector, transition alpha vector,
transition beta vector, in that order, then zipped into coefficient pairs.
Returns `(boundary_coeffs, transition_coeffs)` and the advanced transcript. -/
def round2_challenges (chal : List F → Nat → F) (W nT : Nat) (t : Xcript F) :
    (List (F × F) × List (F × F)) × Xcript F :=
  let ba := batch_sample_challenges chal W t
  let bb := batch_sample_challenges chal W ba.2
  let ta := batch_sample_challenges chal nT bb.2
  let tb := batch_sample_challenges chal nT ta.2
  ((ba.1.zip bb.1, ta.1.zip tb.1), tb.2)

/-- Modelled from the spec (section 4.4): the constraint evaluator.
The source's `ConstraintEvaluator` lives outside the provided prover file;
this model follows the spec's recipe: for each LDE point, take the AIR's
transition numerators on the frame at that point, divide each by its
zerofier (with exempted points near the trace boundary), apply the degree
adjustment `alpha * x^d + beta`, and add the boundary terms
`(alpha * x^e + beta) * (t_j(x) - v) / (x - g^row)`.  The exact degree
adjustment exponents are chosen by the missing code; any fixed choice keeps
the pipeline deterministic, and no claim depends on them. -/
def composition_poly_evaluations (air : AirModel F) (d : DomainM F)
    (r1 : Round1M F) (transition_coeffs boundary_coeffs : List (F × F)) : List F :=
  let L := d.interpolation_domain_size
  let N := d.lde_roots_of_unity_coset.length
  let g := d.trace_primitive_root
  let maxDeg := (air.transition_degrees.foldl Nat.max 1) * L
  (List.range N).map (fun i =>
    let x := d.lde_roots_of_unity_coset.getD i 0
    let frame := air.transition_offsets.map
      (fun m => getRowT r1.lde_trace ((i + m * d.blowup_factor) % N))
    let cvals := air.compute_transition frame
    let transSum := (List.range air.num_transition_constraints).foldl
      (fun s k =>
        let e := air.transition_exemptions.getD k 0
        let zerofier := (x ^ L - 1) *
          ((List.range e).foldl (fun pr j => pr * (x - g ^ (L - 1 - j))) 1)⁻¹
        let dk := maxDeg - (air.transition_degrees.getD k 1) * (L - 1)
        let ab := transition_coeffs.getD k (0, 0)
        s + (ab.1 * x ^ dk + ab.2) * (cvals.getD k 0) * zerofier⁻¹)
      0
    let bndSum := (List.range air.boundary_constraints.length).foldl
      (fun s j =>
        let c := air.boundary_constraints.getD j (0, 0, 0)
        let tj := (getRowT r1.lde_trace i).getD c.1 0
        let ab := boundary_coeffs.getD j (0, 0)
        s + (ab.1 * x ^ (maxDeg - L) + ab.2) * (tj - c.2.2) * (x - g ^ c.2.1)⁻¹)
      0
    transSum + bndSum)

/-- The source's `round_2_compute_composition_polynomial`: build the
composition polynomial from the constraint evaluations, split it into even
and odd parts, evaluate both on the LDE coset, and Merkle-commit them in
the fixed order `[H_1, H_2]`. -/
def round_2 (mroot : List F → F) (air : AirModel F) (d : DomainM F)
    (r1 : Round1M F) (transition_coeffs boundary_coeffs : List (F × F)) : Round2M F :=
  let hEvals := composition_poly_evaluations air d r1 transition_coeffs boundary_coeffs
  let h := lagrangeInterpolate d.lde_roots_of_unity_coset hEvals
  let even := pEvenCoeffs h
  let odd := pOddCoeffs h
  let evenEvals := evaluate_polynomial_on_lde_domain d even
  let oddEvals := evaluate_polynomial_on_lde_domain d odd
  let tc := batch_commit mroot [evenEvals, oddEvals]
  { composition_poly_even := even
    lde_composition_poly_even_evaluations := evenEvals
    composition_poly_odd := odd
    lde_composition_poly_odd_evaluations := oddEvals
    composition_poly_merkle_trees := tc.1
    composition_poly_roots := tc.2 }

/-! ### Round 3: out-of-domain evaluations -/

/-- Outputs of round 3 (the source's `Round3`). -/
structure Round3M (F : Type) where
  trace_ood_frame_evaluations : Frame F
  composition_poly_ood_evaluations : F × F

/-- The source's `Frame::get_trace_evaluations`: one row per transition
offset `m`, each row holding `t_j(z * g^m)` for every trace polynomial `j`. -/
def get_trace_evaluations (trace_polys : List (List F)) (z : F)
    (offsets : List Nat) (g : F) : List (List F) :=
  offsets.map (fun m => trace_polys.map (fun p => evalP p (z * g ^ m)))

/-- The source's `round_3_evaluate_polynomials_in_out_of_domain_element`:
evaluate `H_1` and `H_2` at `z^2` and build the out-of-domain frame from the
trace polynomials at `z * g^m`, flattened row-major with the number of trace
columns as the row width. -/
def round_3 (air : AirModel F) (d : DomainM F) (r1 : Round1M F)
    (r2 : Round2M F) (z : F) : Round3M F :=
  let zz := z * z
  let comp := (evalP r2.composition_poly_even zz, evalP r2.composition_poly_odd zz)
  let rows := get_trace_evaluations r1.trace_polys z air.transition_offsets
    d.trace_primitive_root
  { trace_ood_frame_evaluations := { data := rows.flatten, width := r1.trace_polys.length }
    composition_poly_ood_evaluations := comp }

/-- The round-3 transcript absorbs of the source's `prove` (lines 518-529):
absorb `H_1(z^2)`, then `H_2(z^2)`, then row 0 of the out-of-domain frame,
then row 1. -/
def round3_absorb (t : Xcript F) (r3 : Round3M F) : Xcript F :=
  let t1 := appendF t r3.composition_poly_ood_evaluations.1
  let t2 := appendF t1 r3.composition_poly_ood_evaluations.2
  let t3 := appendList t2 (r3.trace_ood_frame_evaluations.getRow 0)
  appendList t3 (r3.trace_ood_frame_evaluations.getRow 1)

/-! ### Round 4: DEEP composition polynomial and FRI -/

/-- Outputs of round 4 (the source's `Round4`). -/
structure Round4M (F : Type) where
  fri_last_value : F
  fri_layers_merkle_roots : List F
  deep_consistency_check : DeepConsistencyCheck F
  query_list : List (FriDecommitment F)

/-- The round-4 challenge sampling of the source's
`round_4_compute_and_run_fri_on_the_deep_composition_polynomial`
(lines 306-314): a batch of `n` trace DEEP coefficients, then the two
composition DEEP coefficients.  Returns `((lambdas, (gamma1, gamma2)),
transcript)`. -/
def round4_coeffs (chal : List F → Nat → F) (n : Nat) (t : Xcript F) :
    (List F × (F × F)) × Xcript F :=
  let bs := batch_sample_challenges chal n t
  let g1 := sampleF chal bs.2
  let g2 := sampleF chal g1.2
  ((bs.1, (g1.1, g2.1)), g2.2)

/-- The source's `compute_deep_composition_poly`: the nested loop over trace
polynomials (outer, index `i`) and trace evaluations zipped with offsets
(inner, index `j`), each quotient term scaled by the flat challenge
`lambda[i * |evaluations| + j]`, plus the two composition terms divided by
`X - z^2` and scaled by `gamma_1`, `gamma_2`. -/
def compute_deep_composition_poly (offsets : List Nat) (trace_polys : List (List F))
    (even_composition_poly odd_composition_poly : List F) (z g : F)
    (gammas : F × F) (lambdas : List F) : List F :=
  let trace_evaluations := get_trace_evaluations trace_polys z offsets g
  let trace_terms := (List.range trace_polys.length).foldl
    (fun acc i =>
      (List.range trace_evaluations.length).foldl
        (fun acc2 j =>
          let ev := (trace_evaluations.getD j []).getD i 0
          let shifted := z * g ^ (offsets.getD j 0)
          let q := divLinear (pSub (trace_polys.getD i []) [ev]) shifted
          pAdd acc2 (pSmul (lambdas.getD (i * trace_evaluations.length + j) 0) q))
        acc)
    []
  let zz := z * z
  let evenTerm := divLinear (pSub even_composition_poly [evalP even_composition_poly zz]) zz
  let oddTerm := divLinear (pSub odd_composition_poly [evalP odd_composition_poly zz]) zz
  pAdd (pAdd trace_terms (pSmul gammas.1 evenTerm)) (pSmul gammas.2 oddTerm)

/-- Definition following the spec's words (section 4.5), for comparison with
the source's `compute_deep_composition_poly`:
`P(X) = sum_{j,m} lambda_{j,m} T_{j,m}(X) + gamma_1 U_1(X) + gamma_2 U_2(X)`
with `T_{j,m}(X) = (t_j(X) - t_j(z g^m)) / (X - z g^m)`,
`U_i(X) = (H_i(X) - H_i(z^2)) / (X - z^2)`, and `lambda_{j,m}` read from the
flat challenge vector at position `j * |offsets| + m`. -/
def deep_poly_spec (offsets : List Nat) (trace_polys : List (List F))
    (even_composition_poly odd_composition_poly : List F) (z g : F)
    (gammas : F × F) (lambdas : List F) : List F :=
  let k := offsets.length
  let traceTerm := fun (j m : Nat) =>
    let pj := trace_polys.getD j []
    let pt := z * g ^ (offsets.getD m 0)
    divLinear (pSub pj [evalP pj pt]) pt
  let trace_sum := (List.range trace_polys.length).foldl
    (fun acc j =>
      (List.range k).foldl
        (fun acc2 m =>
          pAdd acc2 (pSmul (lambdas.getD (j * k + m) 0) (traceTerm j m)))
        acc)
    []
  let zz := z * z
  let u1 := divLinear (pSub even_composition_poly [evalP even_composition_poly zz]) zz
  let u2 := divLinear (pSub odd_composition_poly [evalP odd_composition_poly zz]) zz
  pAdd (pAdd trace_sum (pSmul gammas.1 u1)) (pSmul gammas.2 u2)

/-- One step of the FRI commit phase: commit the current evaluations as a
layer, absorb its root, sample the folding challenge, fold the polynomial
and square-halve the domain.  Returns `((next_poly, next_domain,
next_transcript), layer)`. -/
def fri_step (chal : List F → Nat → F) (mroot : List F → F)
    (p dom : List F) (t : Xcript F) :
    (List F × List F × Xcript F) × FriLayer F :=
  let evals := dom.map (fun x => evalP p x)
  let layer : FriLayer F := { domain := dom, evaluations := evals, root := mroot evals }
  let s := sampleF chal (appendF t layer.root)
  ((foldPoly p s.1, (dom.take (dom.length / 2)).map (fun x => x * x), s.2), layer)

/-- Modelled from the spec (section 4.6, commit phase): fold the polynomial
and square-halve the domain, committing each layer and absorbing its root,
until the domain has length 1; then absorb the final constant.  The source's
`fri_commit_phase` lives outside the provided prover file.  The recursion is
by fuel, which strictly dominates the number of foldings since the domain
halves each step. -/
def fri_commit_rec (chal : List F → Nat → F) (mroot : List F → F) :
    Nat → List F → List F → Xcript F → F × List (FriLayer F) × Xcript F
  | 0, p, _, t =>
      let c := p.headD 0
      (c, [], appendF t c)
  | fuel + 1, p, dom, t =>
      if dom.length ≤ 1 then
        let c := p.headD 0
        (c, [], appendF t c)
      else
        let st := fri_step chal mroot p dom t
        let rest := fri_commit_rec chal mroot fuel st.1.1 st.1.2.1 st.1.2.2
        (rest.1, st.2 :: rest.2.1, rest.2.2)

/-- Modelled from the spec: the FRI commit phase.  The first argument
mirrors the order parameter the source call site passes
(`domain.root_order`, prover line 330); the spec's loop terminates on the
domain length reaching 1, so the model keeps the parameter but the folding
is driven by the domain. -/
def fri_commit_phase (chal : List F → Nat → F) (mroot : List F → F)
    (kappa : Nat) (p : List F) (dom : List F) (t : Xcript F) :
    F × List (FriLayer F) × Xcript F :=
  let _ := kappa
  fri_commit_rec chal mroot dom.length p dom t

/-- The symmetric-partner position formula of the source's `fri_query_phase`
(line 268): `(iota + len / 2) % len`. -/
def indexSym (iota len : Nat) : Nat :=
  (iota + len / 2) % len

/-- The spec's symmetric-partner position (section 4.6, query phase):
`(iota_ell + len / 2) % len` where `iota_ell` is `iota` reduced mod `len`. -/
def indexSymSpec (iota len : Nat) : Nat :=
  (iota % len + len / 2) % len

/-- Modelled from the spec: `open_layer` opens a FRI layer at a position,
returning the evaluation and its authentication path. -/
def open_layer (layer : FriLayer F) (idx : Nat) : F × MProof F :=
  (layer.evaluations.getD idx 0, { pos := idx, leaf := layer.evaluations.getD idx 0 })

/-- The source's `fri_query_phase` (lines 245-289): if there are no layers,
return no queries and first-layer index 0 without touching the transcript;
otherwise, for each of the `nQ` queries sample an index challenge reduced
mod `2^kappa`, open layer 0 there, and open the symmetric partner of every
layer; return the query list and the first query's index. -/
def fri_query_phase (chalU : List F → Nat → Nat) (nQ kappa : Nat)
    (fri_layers : List (FriLayer F)) (t : Xcript F) :
    List (FriDecommitment F) × Nat × Xcript F :=
  match fri_layers with
  | [] => ([], 0, t)
  | first :: _ =>
      let step := fun (acc : List (FriDecommitment F) × List Nat × Xcript F) (_ : Nat) =>
        let s := sampleU chalU acc.2.2
        let iota := s.1 % 2 ^ kappa
        let fo := open_layer first iota
        let syms := fri_layers.map (fun layer => open_layer layer (indexSym iota layer.domain.length))
        (acc.1 ++ [{ layers_auth_paths_sym := syms.map Prod.snd
                     layers_evaluations_sym := syms.map Prod.fst
                     first_layer_evaluation := fo.1
                     first_layer_auth_path := fo.2 }],
         acc.2.1 ++ [iota], s.2)
      let r := (List.range nQ).foldl step ([], [], t)
      (r.1, r.2.1.headD 0, r.2.2)

/-- The source's `build_deep_consistency_check` (lines 413-449): reduce the
index mod the LDE coset size, open every trace-column tree and both
composition trees there, and record the trace row and the even/odd
composition evaluations at that index. -/
def build_deep_consistency_check (d : DomainM F) (r1 : Round1M F)
    (r2 : Round2M F) (index_to_open : Nat) : DeepConsistencyCheck F :=
  let index := index_to_open % d.lde_roots_of_unity_coset.length
  { lde_trace_merkle_proofs :=
      r1.lde_trace_merkle_trees.map (fun tree => get_proof_by_pos tree index)
    lde_composition_poly_proofs :=
      r2.composition_poly_merkle_trees.map (fun tree => get_proof_by_pos tree index)
    lde_trace_evaluations := getRowT r1.lde_trace index
    lde_composition_poly_evaluations :=
      [r2.lde_composition_poly_even_evaluations.getD index 0,
       r2.lde_composition_poly_odd_evaluations.getD index 0] }

/-- The tail of the source's round 4 after the FRI commit phase: run the
query phase on the produced layers, build the deep consistency check from
the first query's first-layer index, and assemble the round-4 record. -/
def round4_assemble (chalU : List F → Nat → Nat) (nQ kappa : Nat) (d : DomainM F)
    (r1 : Round1M F) (r2 : Round2M F) (fc : F × List (FriLayer F) × Xcript F) :
    Round4M F × Xcript F :=
  let q := fri_query_phase chalU nQ kappa fc.2.1 fc.2.2
  ({ fri_last_value := fc.1
     fri_layers_merkle_roots := fc.2.1.map (fun layer => layer.root)
     deep_consistency_check := build_deep_consistency_check d r1 r2 q.2.1
     query_list := q.1 }, q.2.2)

/-- The source's
`round_4_compute_and_run_fri_on_the_deep_composition_polynomial`: sample the
trace DEEP coefficients (`|offsets| * trace_columns` of them) and the two
composition coefficients, build the DEEP polynomial, run the FRI commit
phase on it over the LDE coset (passing `domain.root_order`, as the source
does), then the query phase, and build the deep consistency check. -/
def round_4 (chal : List F → Nat → F) (chalU : List F → Nat → Nat)
    (mroot : List F → F) (air : AirModel F) (d : DomainM F) (r1 : Round1M F)
    (r2 : Round2M F) (z : F) (t : Xcript F) : Round4M F × Xcript F :=
  let c := round4_coeffs chal (air.transition_offsets.length * air.trace_columns) t
  let p := compute_deep_composition_poly air.transition_offsets r1.trace_polys
    r2.composition_poly_even r2.composition_poly_odd z d.trace_primitive_root
    c.1.2 c.1.1
  let fc := fri_commit_phase chal mroot d.root_order p d.lde_roots_of_unity_coset c.2
  round4_assemble chalU air.fri_number_of_queries d.lde_root_order d r1 r2 fc

/-! ### Out-of-domain sampling and the full prover -/

/-- Modelled from the spec (round 3 of section 4.7): `sample_z_ood`
rejection-samples a field challenge until it lies outside both the LDE
coset and the trace subgroup.  The source function lives outside the
provided prover file; the call site (prover lines 504-508) passes exactly
those two domains.  The source loops without bound; the model uses fuel and
returns `none` if the fuel runs out. -/
def sample_z_ood (chal : List F → Nat → F) (lde trace_ru : List F) :
    Nat → Xcript F → Option (F × Xcript F)
  | 0, _ => none
  | fuel + 1, t =>
      let s := sampleF chal t
      if s.1 ∈ lde ∨ s.1 ∈ trace_ru then sample_z_ood chal lde trace_ru fuel s.2
      else some s

/-- Total wrapper used by the embedded `prove`: fall back to a plain field
challenge when the fuel budget is exhausted (the source would instead loop
on; determinism is unaffected). -/
def sample_z_total (chal : List F → Nat → F) (lde trace_ru : List F)
    (t : Xcript F) : F × Xcript F :=
  (sample_z_ood chal lde trace_ru (lde.length + trace_ru.length + 1) t).getD
    (sampleF chal t)

/-- The source's `prove` (lines 452-553): the four-round pipeline.  The
field capabilities are parameters: `prim_root` supplies primitive roots of
unity, `mroot` the Merkle root of a leaf column, `chal`/`chalU` the
deterministic transcript challenges. -/
def prove (prim_root : Nat → F) (mroot : List F → F)
    (chal : List F → Nat → F) (chalU : List F → Nat → Nat)
    (trace : TraceTableM F) (air : AirModel F) : StarkProof F :=
  let d := Domain.new prim_root air
  let t0 : Xcript F := { absorbed := [], drawn := 0 }
  let r1 := round_1 mroot trace d
  let t1 := appendList t0 r1.lde_trace_merkle_roots
  let rc := round2_challenges chal r1.trace_polys.length air.num_transition_constraints t1
  let r2 := round_2 mroot air d r1 rc.1.2 rc.1.1
  let t2 := appendF (appendF rc.2 (r2.composition_poly_roots.getD 0 0))
    (r2.composition_poly_roots.getD 1 0)
  let zs := sample_z_total chal d.lde_roots_of_unity_coset d.trace_roots_of_unity t2
  let r3 := round_3 air d r1 r2 zs.1
  let t3 := round3_absorb zs.2 r3
  let r4 := round_4 chal chalU mroot air d r1 r2 zs.1 t3
  { lde_trace_merkle_roots := r1.lde_trace_merkle_roots
    composition_poly_roots := r2.composition_poly_roots
    fri_layers_merkle_roots := r4.1.fri_layers_merkle_roots
    fri_last_value := r4.1.fri_last_value
    trace_ood_frame_evaluations := r3.trace_ood_frame_evaluations
    composition_poly_ood_evaluations := r3.composition_poly_ood_evaluations
    deep_consistency_check := r4.1.deep_consistency_check
    query_list := r4.1.query_list }

/-! ### Proof serialization

Modelled from the spec (section 6, proof wire format): field elements
serialized by a fixed injective byte encoding `f2b`, lists length-prefixed,
fields emitted in the order of the `Proof` record. -/

/-- Length-prefixed serialization of a list of field elements. -/
def serializeFs (f2b : F → List Nat) (l : List F) : List Nat :=
  l.length :: (l.map f2b).flatten

/-- Serialization of a Merkle authentication path (position, then leaf). -/
def serializeMProof (f2b : F → List Nat) (pr : MProof F) : List Nat :=
  pr.pos :: f2b pr.leaf

/-- Serialization of one FRI query opening. -/
def serializeQuery (f2b : F → List Nat) (q : FriDecommitment F) : List Nat :=
  (q.layers_auth_paths_sym.length ::
      (q.layers_auth_paths_sym.map (serializeMProof f2b)).flatten) ++
    serializeFs f2b q.layers_evaluations_sym ++
    f2b q.first_layer_evaluation ++
    serializeMProof f2b q.first_layer_auth_path

/-- Serialization of the deep consistency check. -/
def serializeDCC (f2b : F → List Nat) (c : DeepConsistencyCheck F) : List Nat :=
  (c.lde_trace_merkle_proofs.length ::
      (c.lde_trace_merkle_proofs.map (serializeMProof f2b)).flatten) ++
    (c.lde_composition_poly_proofs.length ::
      (c.lde_composition_poly_proofs.map (serializeMProof f2b)).flatten) ++
    serializeFs f2b c.lde_trace_evaluations ++
    serializeFs f2b c.lde_composition_poly_evaluations

/-- Byte serialization of the whole proof, in record-field order. -/
def serializeProof (f2b : F → List Nat) (p : StarkProof F) : List Nat :=
  serializeFs f2b p.lde_trace_merkle_roots ++
    serializeFs f2b p.composition_poly_roots ++
    serializeFs f2b p.fri_layers_merkle_roots ++
    f2b p.fri_last_value ++
    (p.trace_ood_frame_evaluations.width :: serializeFs f2b p.trace_ood_frame_evaluations.data) ++
    f2b p.composition_poly_ood_evaluations.1 ++
    f2b p.composition_poly_ood_evaluations.2 ++
    serializeDCC f2b p.deep_consistency_check ++
    (p.query_list.length :: (p.query_list.map (serializeQuery f2b)).flatten)

/-! ### Helper lemmas -/

theorem zip_getD_eq {α β : Type} (l1 : List α) (l2 : List β) (i : Nat) (a : α) (b : β)
    (h1 : i < l1.length) (h2 : i < l2.length) :
    (l1.zip l2).getD i (a, b) = (l1.getD i a, l2.getD i b) := by
  rw [List.getD_eq_getElem _ _ (by rw [List.length_zip]; omega),
      List.getD_eq_getElem _ _ h1, List.getD_eq_getElem _ _ h2]
  exact List.getElem_zip

/-- Cycling lemma for powers: if `a ^ n = 1` then exponents reduce mod `n`. -/
theorem pow_cycle (a : F) (n : Nat) (h : a ^ n = 1) (e : Nat) :
    a ^ e = a ^ (e % n) := by
  conv_lhs => rw [← Nat.div_add_mod e n]
  rw [pow_add, pow_mul, h, one_pow, one_mul]

/-! ### Concrete test fixtures (small prime field) -/

instance : Fact (Nat.Prime 17) := ⟨by norm_num⟩

instance : Fact (Nat.Prime 13) := ⟨by norm_num⟩

/-- A deterministic byte encoding for the small test field. -/
def testF2b : ZMod 17 → List Nat := fun x => [x.val]

/-- A deterministic field-challenge function for tests. -/
def testChal : List (ZMod 17) → Nat → ZMod 17 := fun _ n => (n : ZMod 17)

/-- A deterministic index-challenge function for tests. -/
def testChalU : List (ZMod 17) → Nat → Nat := fun _ n => n + 7

/-- A deterministic Merkle-root stand-in for tests. -/
def testMroot : List (ZMod 17) → ZMod 17 := fun l => l.foldl (fun a c => a + c + 1) 0

/-- A primitive-root capability for tests (3 has order 16 mod 17). -/
def testPrim : Nat → ZMod 17 := fun _ => 3

/-- A small Fibonacci-style AIR instance for tests, with the three
transition offsets of the source's test AIR. -/
def testAir : AirModel (ZMod 17) :=
  { trace_length := 2
    trace_columns := 1
    blowup_factor := 2
    coset_offset := 3
    fri_number_of_queries := 1
    transition_offsets := [0, 1, 2]
    transition_degrees := [1]
    transition_exemptions := [2]
    num_transition_constraints := 1
    compute_transition := fun fr => [((fr.getD 2 []).getD 0 0) - ((fr.getD 1 []).getD 0 0) - ((fr.getD 0 []).getD 0 0)]
    boundary_constraints := [(0, 0, 1)] }

/-- A two-row, one-column test trace. -/
def testTrace : TraceTableM (ZMod 17) := { cols := [[1, 1]] }

/-! ### C4: symmetric-partner position in the FRI query phase -/

/-- C4: in the FRI query phase, for every layer whose domain size is a power
of two dividing the layer-0 size, the code's symmetric-partner formula
`(iota + len/2) % len` (the `indexSym` used by `fri_query_phase`) agrees
with the spec's `(iota_ell + len/2) % len` where `iota_ell = iota % len`. -/
theorem c4_sym_position_agrees (iota len len0 s : Nat)
    (hpow : len = 2 ^ s) (hdvd : len ∣ len0) :
    indexSym iota len = indexSymSpec iota len := by
  unfold indexSym indexSymSpec
  rw [Nat.mod_add_mod]

theorem c4_sym_position_agrees_witness :
    (4 : Nat) = 2 ^ 2 ∧ (4 : Nat) ∣ 16 ∧ indexSym 11 4 = indexSymSpec 11 4 :=
  ⟨by decide, by decide, c4_sym_position_agrees 11 4 16 2 (by decide) (by decide)⟩

/-! ### C5: round-2 challenge ordering -/

/-- C5: in round 2 the prover samples, in this order and before absorbing
any round-2 root, a boundary alpha vector of length `W`, a boundary beta
vector of length `W`, a transition alpha vector of length `nT` and a
transition beta vector of length `nT`: the boundary pair `i` holds the
challenges drawn at offsets `i` and `W + i`, the transition pair `j` those
drawn at offsets `2W + j` and `2W + nT + j`, the absorbed data is untouched
by the sampling, and exactly `2W + 2nT` challenges are drawn. -/
theorem c5_round2_challenge_order (chal : List F → Nat → F) (W nT : Nat) (t : Xcript F) :
    (round2_challenges chal W nT t).1.1.length = W ∧
    (round2_challenges chal W nT t).1.2.length = nT ∧
    (∀ i, i < W → (round2_challenges chal W nT t).1.1.getD i (0, 0) =
      (chal t.absorbed (t.drawn + i), chal t.absorbed (t.drawn + W + i))) ∧
    (∀ j, j < nT → (round2_challenges chal W nT t).1.2.getD j (0, 0) =
      (chal t.absorbed (t.drawn + 2 * W + j), chal t.absorbed (t.drawn + 2 * W + nT + j))) ∧
    (round2_challenges chal W nT t).2.absorbed = t.absorbed ∧
    (round2_challenges chal W nT t).2.drawn = t.drawn + 2 * W + 2 * nT := by
  unfold round2_challenges
  simp only [batch_sample_challenges_state]
  refine ⟨?_, ?_, ?_, ?_, ?_, ?_⟩
  · rw [List.length_zip, batch_sample_challenges_length, batch_sample_challenges_length]
    omega
  · rw [List.length_zip, batch_sample_challenges_length, batch_sample_challenges_length]
    omega
  · intro i hi
    rw [zip_getD_eq _ _ _ _ _ (by rw [batch_sample_challenges_length]; omega)
        (by rw [batch_sample_challenges_length]; omega)]
    rw [batch_sample_challenges_getD _ _ _ _ hi, batch_sample_challenges_getD _ _ _ _ hi]
  · intro j hj
    rw [zip_getD_eq _ _ _ _ _ (by rw [batch_sample_challenges_length]; omega)
        (by rw [batch_sample_challenges_length]; omega)]
    rw [batch_sample_challenges_getD _ _ _ _ hj, batch_sample_challenges_getD _ _ _ _ hj]
    show (chal t.absorbed (t.drawn + W + W + j), chal t.absorbed (t.drawn + W + W + nT + j)) =
      (chal t.absorbed (t.drawn + 2 * W + j), chal t.absorbed (t.drawn + 2 * W + nT + j))
    rw [show t.drawn + W + W + j = t.drawn + 2 * W + j from by omega,
        show t.drawn + W + W + nT + j = t.drawn + 2 * W + nT + j from by omega]
  · trivial
  · show t.drawn + W + W + nT + nT = t.drawn + 2 * W + 2 * nT
    omega

theorem c5_round2_challenge_order_witness :
    (round2_challenges testChal 2 1 { absorbed := [], drawn := 0 }).1.1.length = 2 ∧
    (round2_challenges testChal 2 1 { absorbed := [], drawn := 0 }).1.2.length = 1 ∧
    (∀ i, i < 2 → (round2_challenges testChal 2 1 { absorbed := [], drawn := 0 }).1.1.getD i (0, 0) =
      (testChal [] (0 + i), testChal [] (0 + 2 + i))) ∧
    (∀ j, j < 1 → (round2_challenges testChal 2 1 { absorbed := [], drawn := 0 }).1.2.getD j (0, 0) =
      (testChal [] (0 + 2 * 2 + j), testChal [] (0 + 2 * 2 + 1 + j))) ∧
    (round2_challenges testChal 2 1 { absorbed := [], drawn := 0 }).2.absorbed = [] ∧
    (round2_challenges testChal 2 1 { absorbed := [], drawn := 0 }).2.drawn = 0 + 2 * 2 + 2 * 1 :=
  c5_round2_challenge_order testChal 2 1 { absorbed := [], drawn := 0 }

/-! ### C9: determinism of the prover -/

/-- C9: `prove` is a pure function of the trace and the AIR once the
deterministic capabilities (primitive roots, Merkle root, transcript
challenges) are fixed: equal inputs give byte-equal serialized proofs.  In
this embedding every pipeline stage is a function of its inputs and of the
single threaded transcript, so two runs coincide. -/
theorem c9_prove_deterministic (prim_root : Nat → F) (mroot : List F → F)
    (chal : List F → Nat → F) (chalU : List F → Nat → Nat) (f2b : F → List Nat)
    (t1 t2 : TraceTableM F) (a1 a2 : AirModel F) (h1 : t1 = t2) (h2 : a1 = a2) :
    serializeProof f2b (prove prim_root mroot chal chalU t1 a1) =
      serializeProof f2b (prove prim_root mroot chal chalU t2 a2) := by
  subst h1
  subst h2
  rfl

theorem c9_prove_deterministic_witness :
    testTrace = testTrace ∧
    serializeProof testF2b (prove testPrim testMroot testChal testChalU testTrace testAir) =
      serializeProof testF2b (prove testPrim testMroot testChal testChalU testTrace testAir) :=
  ⟨rfl, c9_prove_deterministic testPrim testMroot testChal testChalU testF2b
    testTrace testTrace testAir testAir rfl rfl⟩

/-! ### C10: empty FRI layer list -/

/-- C10: when the FRI commit phase produced no layers, `fri_query_phase`
returns an empty query list and first-layer index 0 with the transcript
untouched, and the round-4 assembly therefore carries an empty `query_list`
and a deep consistency check that opens every commitment at position 0
(index `0 % |LDE|` is 0). -/
theorem c10_no_layers (chalU : List F → Nat → Nat) (nQ kappa : Nat)
    (d : DomainM F) (r1 : Round1M F) (r2 : Round2M F) (v : F) (t : Xcript F) :
    fri_query_phase chalU nQ kappa ([] : List (FriLayer F)) t = ([], 0, t) ∧
    round4_assemble chalU nQ kappa d r1 r2 (v, [], t) =
      ({ fri_last_value := v
         fri_layers_merkle_roots := []
         deep_consistency_check := build_deep_consistency_check d r1 r2 0
         query_list := [] }, t) ∧
    (build_deep_consistency_check d r1 r2 0).lde_trace_merkle_proofs =
      r1.lde_trace_merkle_trees.map (fun tree => get_proof_by_pos tree 0) ∧
    (build_deep_consistency_check d r1 r2 0).lde_composition_poly_proofs =
      r2.composition_poly_merkle_trees.map (fun tree => get_proof_by_pos tree 0) ∧
    (build_deep_consistency_check d r1 r2 0).lde_trace_evaluations =
      getRowT r1.lde_trace 0 ∧
    (build_deep_consistency_check d r1 r2 0).lde_composition_poly_evaluations =
      [r2.lde_composition_poly_even_evaluations.getD 0 0,
       r2.lde_composition_poly_odd_evaluations.getD 0 0] := by
  refine ⟨rfl, rfl, ?_, ?_, ?_, ?_⟩ <;>
    simp [build_deep_consistency_check, Nat.zero_mod]

/-! ### C2: round-3 absorbs of the out-of-domain frame -/

/-- C2 (amended): in round 3, after absorbing `H_1(z^2)` then `H_2(z^2)`,
the prover absorbs row 0 and then row 1 of the trace out-of-domain frame,
each row in order — and nothing else: the absorbed data extends exactly by
those two evaluations and those two rows, regardless of how many rows the
frame has. -/
theorem c2_round3_absorbs_two_rows (t : Xcript F) (r3 : Round3M F) :
    (round3_absorb t r3).absorbed =
      t.absorbed ++
        [r3.composition_poly_ood_evaluations.1, r3.composition_poly_ood_evaluations.2] ++
        r3.trace_ood_frame_evaluations.getRow 0 ++
        r3.trace_ood_frame_evaluations.getRow 1 := by
  unfold round3_absorb
  rw [appendList_absorbed, appendList_absorbed]
  simp [appendF, List.append_assoc]

/-- Fixture for the C2 counterexample: a domain record whose trace
primitive root is 3 (the other fields are irrelevant to round 3). -/
def cexDomain : DomainM (ZMod 17) :=
  { root_order := 1
    lde_root_order := 2
    blowup_factor := 2
    interpolation_domain_size := 2
    coset_offset := 3
    trace_primitive_root := 3
    lde_primitive_root := 0
    trace_roots_of_unity := []
    lde_roots_of_unity_coset := [] }

/-- Fixture for the C2 counterexample: round-1 output with the single trace
polynomial `X`. -/
def cexRound1 : Round1M (ZMod 17) :=
  { trace_polys := [[0, 1]]
    lde_trace := { cols := [] }
    lde_trace_merkle_trees := []
    lde_trace_merkle_roots := [] }

/-- Fixture for the C2 counterexample: round-2 output with zero composition
halves. -/
def cexRound2 : Round2M (ZMod 17) :=
  { composition_poly_even := [0]
    lde_composition_poly_even_evaluations := []
    composition_poly_odd := [0]
    lde_composition_poly_odd_evaluations := []
    composition_poly_merkle_trees := []
    composition_poly_roots := [] }

/-- The round-3 output for the C2 counterexample at `z = 2`: the AIR has
the three transition offsets `[0, 1, 2]`, so the out-of-domain frame has
three rows `[t(2)], [t(6)], [t(18)] = [2], [6], [1]`. -/
def cexRound3 : Round3M (ZMod 17) :=
  round_3 testAir cexDomain cexRound1 cexRound2 2

/-- C2 counterexample: for the AIR with transition offsets `[0, 1, 2]`
(`k = 3`, as in the source's own test AIR), it is not the case that every
row of the out-of-domain frame is absorbed into the transcript: row 2
(the evaluation `t(z * g^2) = 1`) never appears in the absorbed data. -/
theorem c2_counterexample :
    ¬ (∀ m, m < testAir.transition_offsets.length →
        ∀ x ∈ cexRound3.trace_ood_frame_evaluations.getRow m,
          x ∈ (round3_absorb { absorbed := [], drawn := 0 } cexRound3).absorbed) := by
  decide

/-! ### C6: the deep consistency check opens everything at the first query index -/

/-- Auxiliary: a left fold whose step only appends to the middle list of an
accumulator triple preserves the first element of that list once nonempty. -/
theorem foldl_snd_headD {A B : Type}
    (step : List A × List Nat × B → Nat → List A × List Nat × B)
    (hstep : ∀ acc x, ∃ l, (step acc x).2.1 = acc.2.1 ++ l) :
    ∀ (l : List Nat) (acc : List A × List Nat × B), acc.2.1 ≠ [] →
      ((l.foldl step acc).2.1).headD 0 = acc.2.1.headD 0 := by
  intro l
  induction l with
  | nil => intro acc h; rfl
  | cons x xs ih =>
      intro acc h
      obtain ⟨l2, hl2⟩ := hstep acc x
      rw [List.foldl_cons,
        ih (step acc x) (by rw [hl2]; intro hc; exact h (List.append_eq_nil.mp hc).1)]
      rw [hl2]
      cases hg : acc.2.1 with
      | nil => exact absurd hg h
      | cons a as => simp

/-- The first-layer index returned by the query phase on a nonempty layer
list with at least one query is the first sampled index challenge reduced
mod `2^kappa`. -/
theorem fri_query_phase_iota0 (chalU : List F → Nat → Nat) (nQ kappa : Nat)
    (first : FriLayer F) (rest : List (FriLayer F)) (t : Xcript F) (hq : 0 < nQ) :
    (fri_query_phase chalU nQ kappa (first :: rest) t).2.1 =
      chalU t.absorbed t.drawn % 2 ^ kappa := by
  obtain ⟨m, rfl⟩ : ∃ m, nQ = m + 1 := ⟨nQ - 1, by omega⟩
  simp only [fri_query_phase]
  rw [List.range_succ_eq_map, List.foldl_cons]
  rw [foldl_snd_headD _ ?hstep _ _ ?hne]
  case hstep =>
    intro acc x
    exact ⟨[(sampleU chalU acc.2.2).1 % 2 ^ kappa], rfl⟩
  case hne => simp
  rfl

/-- C6: the deep consistency check is built from the first query's
first-layer index `iota_0` (itself the first index challenge drawn by the
query phase, reduced mod `2^kappa`): at `index = iota_0 % |LDE|` it opens
every trace-column Merkle tree and both composition-column Merkle trees,
and its evaluation fields hold the trace row and the even/odd composition
evaluations at that index. -/
theorem c6_deep_consistency_check (chalU : List F → Nat → Nat) (nQ kappa : Nat)
    (d : DomainM F) (r1 : Round1M F) (r2 : Round2M F)
    (fc : F × List (FriLayer F) × Xcript F) (first : FriLayer F)
    (rest : List (FriLayer F)) (iota0 : Nat)
    (hlayers : fc.2.1 = first :: rest) (hq : 0 < nQ)
    (hiota : (fri_query_phase chalU nQ kappa fc.2.1 fc.2.2).2.1 = iota0) :
    (round4_assemble chalU nQ kappa d r1 r2 fc).1.deep_consistency_check =
      build_deep_consistency_check d r1 r2 iota0 ∧
    iota0 = chalU fc.2.2.absorbed fc.2.2.drawn % 2 ^ kappa ∧
    (build_deep_consistency_check d r1 r2 iota0).lde_trace_merkle_proofs =
      r1.lde_trace_merkle_trees.map
        (fun tree => get_proof_by_pos tree (iota0 % d.lde_roots_of_unity_coset.length)) ∧
    (build_deep_consistency_check d r1 r2 iota0).lde_composition_poly_proofs =
      r2.composition_poly_merkle_trees.map
        (fun tree => get_proof_by_pos tree (iota0 % d.lde_roots_of_unity_coset.length)) ∧
    (build_deep_consistency_check d r1 r2 iota0).lde_trace_evaluations =
      getRowT r1.lde_trace (iota0 % d.lde_roots_of_unity_coset.length) ∧
    (build_deep_consistency_check d r1 r2 iota0).lde_composition_poly_evaluations =
      [r2.lde_composition_poly_even_evaluations.getD
        (iota0 % d.lde_roots_of_unity_coset.length) 0,
       r2.lde_composition_poly_odd_evaluations.getD
        (iota0 % d.lde_roots_of_unity_coset.length) 0] := by
  refine ⟨?_, ?_, rfl, rfl, rfl, rfl⟩
  · simp only [round4_assemble]
    rw [hiota]
  · rw [← hiota, hlayers, fri_query_phase_iota0 chalU nQ kappa first rest fc.2.2 hq]

/-- Fixture: the S1 domain shape (L = 8, b = 2, h = 3) over the small test
field, with 3 of order 16 playing the LDE primitive root. -/
def s1Domain : DomainM (ZMod 17) :=
  { root_order := 3
    lde_root_order := 4
    blowup_factor := 2
    interpolation_domain_size := 8
    coset_offset := 3
    trace_primitive_root := 9
    lde_primitive_root := 3
    trace_roots_of_unity := (List.range 8).map (fun i => (9 : ZMod 17) ^ i)
    lde_roots_of_unity_coset := (List.range 16).map (fun i => 3 * (3 : ZMod 17) ^ i) }

/-- Fixture: a round-1 record with one committed trace column. -/
def c6Round1 : Round1M (ZMod 17) :=
  { trace_polys := []
    lde_trace := { cols := [[0, 1, 2, 3, 4]] }
    lde_trace_merkle_trees := [{ leaves := [10, 11, 12, 13, 14] }]
    lde_trace_merkle_roots := [7] }

/-- Fixture: a round-2 record with the two composition columns committed. -/
def c6Round2 : Round2M (ZMod 17) :=
  { composition_poly_even := []
    lde_composition_poly_even_evaluations := [1, 2, 3, 4]
    composition_poly_odd := []
    lde_composition_poly_odd_evaluations := [5, 6, 7, 8]
    composition_poly_merkle_trees := [{ leaves := [1, 2, 3, 4] }, { leaves := [5, 6, 7, 8] }]
    composition_poly_roots := [9, 9] }

/-- Fixture: a one-layer FRI commit-phase output. -/
def c6Fc : ZMod 17 × List (FriLayer (ZMod 17)) × Xcript (ZMod 17) :=
  (0, [{ domain := [1, 2], evaluations := [3, 4], root := 5 }], { absorbed := [], drawn := 0 })

theorem c6_deep_consistency_check_witness :
    c6Fc.2.1 = { domain := [1, 2], evaluations := [3, 4], root := 5 } :: [] ∧
    (0 : Nat) < 1 ∧
    (fri_query_phase testChalU 1 2 c6Fc.2.1 c6Fc.2.2).2.1 = 3 ∧
    ((round4_assemble testChalU 1 2 s1Domain c6Round1 c6Round2 c6Fc).1.deep_consistency_check =
      build_deep_consistency_check s1Domain c6Round1 c6Round2 3 ∧
    3 = testChalU c6Fc.2.2.absorbed c6Fc.2.2.drawn % 2 ^ 2 ∧
    (build_deep_consistency_check s1Domain c6Round1 c6Round2 3).lde_trace_merkle_proofs =
      c6Round1.lde_trace_merkle_trees.map
        (fun tree => get_proof_by_pos tree (3 % s1Domain.lde_roots_of_unity_coset.length)) ∧
    (build_deep_consistency_check s1Domain c6Round1 c6Round2 3).lde_composition_poly_proofs =
      c6Round2.composition_poly_merkle_trees.map
        (fun tree => get_proof_by_pos tree (3 % s1Domain.lde_roots_of_unity_coset.length)) ∧
    (build_deep_consistency_check s1Domain c6Round1 c6Round2 3).lde_trace_evaluations =
      getRowT c6Round1.lde_trace (3 % s1Domain.lde_roots_of_unity_coset.length) ∧
    (build_deep_consistency_check s1Domain c6Round1 c6Round2 3).lde_composition_poly_evaluations =
      [c6Round2.lde_composition_poly_even_evaluations.getD
        (3 % s1Domain.lde_roots_of_unity_coset.length) 0,
       c6Round2.lde_composition_poly_odd_evaluations.getD
        (3 % s1Domain.lde_roots_of_unity_coset.length) 0]) :=
  ⟨rfl, by decide, by decide,
    c6_deep_consistency_check testChalU 1 2 s1Domain c6Round1 c6Round2 c6Fc
      { domain := [1, 2], evaluations := [3, 4], root := 5 } [] 3 rfl (by decide) (by decide)⟩

/-! ### C8: LDE evaluation indexing -/

/-- C8: for every polynomial and every domain, the LDE evaluation vector
holds `p(h * om^i)` at index `i`, for all `i` below the LDE domain size
(the spec additionally restricts to `deg p < L`, carried as a hypothesis). -/
theorem c8_lde_evaluation (d : DomainM F) (p : List F) (i : Nat)
    (hdeg : p.length ≤ d.interpolation_domain_size)
    (hi : i < d.interpolation_domain_size * d.blowup_factor) :
    (evaluate_polynomial_on_lde_domain d p).getD i 0 =
      evalP p (d.coset_offset * d.lde_primitive_root ^ i) := by
  unfold evaluate_polynomial_on_lde_domain evaluate_offset_fft
  rw [List.getD_eq_getElem _ _ (by simpa using hi)]
  simp

theorem c8_lde_evaluation_witness :
    ([2, 5] : List (ZMod 17)).length ≤ s1Domain.interpolation_domain_size ∧
    (3 : Nat) < s1Domain.interpolation_domain_size * s1Domain.blowup_factor ∧
    (evaluate_polynomial_on_lde_domain s1Domain [2, 5]).getD 3 0 =
      evalP [2, 5] (s1Domain.coset_offset * s1Domain.lde_primitive_root ^ 3) :=
  ⟨by decide, by decide,
    c8_lde_evaluation s1Domain [2, 5] 3 (by decide) (by decide)⟩

/-! ### C3: round-4 coefficient sampling and the DEEP polynomial indexing -/

/-- The nested accumulation of the source's `compute_deep_composition_poly`
equals the spec's flat sum: each trace term for column `j` at offset index
`m` is scaled by the challenge at flat position `j * |offsets| + m`. -/
theorem deep_poly_code_eq_spec (offsets : List Nat) (tps : List (List F))
    (even_cp odd_cp : List F) (z g : F) (gammas : F × F) (lambdas : List F) :
    compute_deep_composition_poly offsets tps even_cp odd_cp z g gammas lambdas =
      deep_poly_spec offsets tps even_cp odd_cp z g gammas lambdas := by
  simp only [compute_deep_composition_poly, deep_poly_spec, get_trace_evaluations,
    List.length_map]
  congr 2
  apply List.foldl_ext
  intro acc i hi
  apply List.foldl_ext
  intro acc2 j hj
  have hi' : i < tps.length := List.mem_range.mp hi
  have hj' : j < offsets.length := List.mem_range.mp hj
  have h1 : (offsets.map (fun m => tps.map (fun p => evalP p (z * g ^ m)))).getD j [] =
      tps.map (fun p => evalP p (z * g ^ (offsets.getD j 0))) := by
    rw [List.getD_eq_getElem _ _ (by simpa using hj'), List.getElem_map,
      ← List.getD_eq_getElem offsets 0 hj']
  have h2 : (tps.map (fun p => evalP p (z * g ^ (offsets.getD j 0)))).getD i 0 =
      evalP (tps.getD i []) (z * g ^ (offsets.getD j 0)) := by
    rw [List.getD_eq_getElem _ _ (by simpa using hi'), List.getElem_map,
      ← List.getD_eq_getElem tps [] hi']
  rw [h1, h2]

/-- C3: in round 4 the prover first draws the flat trace DEEP coefficient
vector of length `W * |offsets|`, then the two composition coefficients
`gamma_1, gamma_2` (at draw offsets `W * |offsets|` and `W * |offsets| + 1`);
and the DEEP polynomial built by the source scales the trace term for
column `j` at offset index `m` by the challenge at flat position
`j * |offsets| + m`, as the spec-side `deep_poly_spec` states. -/
theorem c3_round4_sampling_and_indexing (chal : List F → Nat → F) (W k : Nat)
    (t : Xcript F) (offsets : List Nat) (tps : List (List F))
    (even_cp odd_cp : List F) (z g : F) (gammas : F × F) (lambdas : List F)
    (hk : offsets.length = k) :
    (round4_coeffs chal (k * W) t).1.1.length = W * k ∧
    (∀ i, i < W * k → (round4_coeffs chal (k * W) t).1.1.getD i 0 =
      chal t.absorbed (t.drawn + i)) ∧
    (round4_coeffs chal (k * W) t).1.2.1 = chal t.absorbed (t.drawn + W * k) ∧
    (round4_coeffs chal (k * W) t).1.2.2 = chal t.absorbed (t.drawn + W * k + 1) ∧
    compute_deep_composition_poly offsets tps even_cp odd_cp z g gammas lambdas =
      deep_poly_spec offsets tps even_cp odd_cp z g gammas lambdas := by
  refine ⟨?_, ?_, ?_, ?_, deep_poly_code_eq_spec offsets tps even_cp odd_cp z g gammas lambdas⟩
  · simp [round4_coeffs, batch_sample_challenges_length, Nat.mul_comm]
  · intro i hi
    show (batch_sample_challenges chal (k * W) t).1.getD i 0 = chal t.absorbed (t.drawn + i)
    exact batch_sample_challenges_getD chal (k * W) t i (by rw [Nat.mul_comm k W]; exact hi)
  · show chal (batch_sample_challenges chal (k * W) t).2.absorbed
      (batch_sample_challenges chal (k * W) t).2.drawn = chal t.absorbed (t.drawn + W * k)
    rw [batch_sample_challenges_state]
    rw [show k * W = W * k from Nat.mul_comm k W]
  · show chal (batch_sample_challenges chal (k * W) t).2.absorbed
      ((batch_sample_challenges chal (k * W) t).2.drawn + 1) =
        chal t.absorbed (t.drawn + W * k + 1)
    rw [batch_sample_challenges_state]
    rw [show k * W = W * k from Nat.mul_comm k W]

theorem c3_round4_sampling_and_indexing_witness :
    ([0, 1] : List Nat).length = 2 ∧
    ((round4_coeffs testChal (2 * 1) { absorbed := [], drawn := 0 }).1.1.length = 1 * 2 ∧
    (∀ i, i < 1 * 2 → (round4_coeffs testChal (2 * 1) { absorbed := [], drawn := 0 }).1.1.getD i 0 =
      testChal [] (0 + i)) ∧
    (round4_coeffs testChal (2 * 1) { absorbed := [], drawn := 0 }).1.2.1 = testChal [] (0 + 1 * 2) ∧
    (round4_coeffs testChal (2 * 1) { absorbed := [], drawn := 0 }).1.2.2 = testChal [] (0 + 1 * 2 + 1) ∧
    compute_deep_composition_poly [0, 1] [[1, 2]] [3] [4] 2 9 (5, 6) [7, 8] =
      deep_poly_spec [0, 1] [[1, 2]] [3] [4] 2 9 (5, 6) ([7, 8] : List (ZMod 17))) :=
  ⟨by decide,
    c3_round4_sampling_and_indexing testChal 1 2 { absorbed := [], drawn := 0 }
      [0, 1] [[1, 2]] [3] [4] 2 9 (5, 6) [7, 8] (by decide)⟩

/-! ### C1: the FRI commit phase folds down to a constant -/

/-- Structure of the FRI commit recursion: on a power-of-two domain of size
`2^n` (with enough fuel, which `fri_commit_phase` always supplies), it
produces exactly `n` layers, layer `l` having domain size `2^(n-l)` (so the
final fold reaches domain length 1), and the returned final constant is the
last element absorbed into the transcript. -/
theorem fri_commit_rec_spec (chal : List F → Nat → F) (mroot : List F → F) :
    ∀ (n fuel : Nat) (p dom : List F) (t : Xcript F),
      dom.length ≤ fuel → dom.length = 2 ^ n →
      (fri_commit_rec chal mroot fuel p dom t).2.1.length = n ∧
      (∀ l, l < n →
        ((fri_commit_rec chal mroot fuel p dom t).2.1.getD l
          { domain := [], evaluations := [], root := 0 }).domain.length = 2 ^ (n - l)) ∧
      (∃ pre, (fri_commit_rec chal mroot fuel p dom t).2.2.absorbed =
        pre ++ [(fri_commit_rec chal mroot fuel p dom t).1]) := by
  intro n
  induction n with
  | zero =>
      intro fuel p dom t hfuel hlen
      have h1 : dom.length = 1 := by simpa using hlen
      cases fuel with
      | zero => omega
      | succ f =>
          simp only [fri_commit_rec]
          rw [if_pos (by omega)]
          exact ⟨rfl, fun l hl => absurd hl (by omega), ⟨t.absorbed, rfl⟩⟩
  | succ n ih =>
      intro fuel p dom t hfuel hlen
      have hpow : (2 : Nat) ^ (n + 1) = 2 * 2 ^ n := by rw [pow_succ, Nat.mul_comm]
      have hone : (1 : Nat) ≤ 2 ^ n := Nat.one_le_two_pow
      cases fuel with
      | zero => omega
      | succ f =>
          simp only [fri_commit_rec]
          rw [if_neg (by omega)]
          have hlen2 : ((fri_step chal mroot p dom t).1.2.1).length = 2 ^ n := by
            show ((dom.take (dom.length / 2)).map (fun x => x * x)).length = 2 ^ n
            rw [List.length_map, List.length_take]
            omega
          have hfuel2 : ((fri_step chal mroot p dom t).1.2.1).length ≤ f := by
            rw [hlen2]
            omega
          obtain ⟨ihl, ihd, ihpre⟩ := ih f (fri_step chal mroot p dom t).1.1
            (fri_step chal mroot p dom t).1.2.1 (fri_step chal mroot p dom t).1.2.2 hfuel2 hlen2
          refine ⟨by simpa using ihl, ?_, ?_⟩
          · intro l hl
            cases l with
            | zero =>
                show (fri_step chal mroot p dom t).2.domain.length = 2 ^ (n + 1 - 0)
                simpa using hlen
            | succ l =>
                have hd := ihd l (by omega)
                show ((fri_commit_rec chal mroot f (fri_step chal mroot p dom t).1.1
                  (fri_step chal mroot p dom t).1.2.1
                  (fri_step chal mroot p dom t).1.2.2).2.1.getD l
                    { domain := [], evaluations := [], root := 0 }).domain.length = 2 ^ (n + 1 - (l + 1))
                simpa using hd
          · obtain ⟨pre, hpre⟩ := ihpre
            exact ⟨pre, hpre⟩

/-- C1: the FRI commit phase run on any polynomial over a domain of size
`2^n` (the LDE coset has size `L * b`, so `n = log2 (L * b)`) performs
exactly `n` folding steps: it emits `n` layers whose domain sizes halve from
`2^n` down to 2 — the fold after the last layer reaches a domain of length
1 — and `fri_last_value` (the first component) is the final constant, the
last element absorbed into the transcript. -/
theorem c1_fri_commit_until_length_one (chal : List F → Nat → F)
    (mroot : List F → F) (kappa : Nat) (p : List F) (t : Xcript F)
    (n : Nat) (dom : List F) (hdom : dom.length = 2 ^ n) :
    (fri_commit_phase chal mroot kappa p dom t).2.1.length = n ∧
    (∀ l, l < n →
      ((fri_commit_phase chal mroot kappa p dom t).2.1.getD l
        { domain := [], evaluations := [], root := 0 }).domain.length = 2 ^ (n - l)) ∧
    (∃ pre, (fri_commit_phase chal mroot kappa p dom t).2.2.absorbed =
      pre ++ [(fri_commit_phase chal mroot kappa p dom t).1]) := by
  unfold fri_commit_phase
  exact fri_commit_rec_spec chal mroot n dom.length p dom t (le_refl _) hdom

theorem c1_fri_commit_until_length_one_witness :
    ([1, 2, 3, 4] : List (ZMod 17)).length = 2 ^ 2 ∧
    ((fri_commit_phase testChal testMroot 3 [5, 6, 7, 8] [1, 2, 3, 4]
        { absorbed := [], drawn := 0 }).2.1.length = 2 ∧
    (∀ l, l < 2 →
      ((fri_commit_phase testChal testMroot 3 [5, 6, 7, 8] [1, 2, 3, 4]
          { absorbed := [], drawn := 0 }).2.1.getD l
        { domain := [], evaluations := [], root := 0 }).domain.length = 2 ^ (2 - l)) ∧
    (∃ pre, (fri_commit_phase testChal testMroot 3 [5, 6, 7, 8] [1, 2, 3, 4]
        { absorbed := [], drawn := 0 }).2.2.absorbed =
      pre ++ [(fri_commit_phase testChal testMroot 3 [5, 6, 7, 8] [1, 2, 3, 4]
        { absorbed := [], drawn := 0 }).1])) :=
  ⟨by decide,
    c1_fri_commit_until_length_one testChal testMroot 3 [5, 6, 7, 8]
      { absorbed := [], drawn := 0 } 2 [1, 2, 3, 4] (by decide)⟩

/-! ### C7: the out-of-domain point avoids both domains -/

/-- The rejection sampler only returns values outside both supplied
domains. -/
theorem sample_z_ood_not_mem (chal : List F → Nat → F) (lde tru : List F) :
    ∀ (fuel : Nat) (t t2 : Xcript F) (z : F),
      sample_z_ood chal lde tru fuel t = some (z, t2) → z ∉ lde ∧ z ∉ tru := by
  intro fuel
  induction fuel with
  | zero => intro t t2 z h; simp [sample_z_ood] at h
  | succ f ih =>
      intro t t2 z h
      simp only [sample_z_ood] at h
      by_cases hmem : (sampleF chal t).1 ∈ lde ∨ (sampleF chal t).1 ∈ tru
      · rw [if_pos hmem] at h
        exact ih _ _ _ h
      · rw [if_neg hmem] at h
        have hz : (sampleF chal t).1 = z := by
          have := Option.some.inj h
          exact congrArg Prod.fst this
        push_neg at hmem
        rw [← hz]
        exact hmem

/-- C7 (amended): the out-of-domain point returned by the round-3 sampler
never lies in the LDE coset nor in the trace subgroup, and consequently the
trace-term divisors `X - z * g^m` never vanish on either domain (the coset
and the subgroup are closed under multiplication by powers of `g`).  The
composition-term divisor `X - z^2` is not covered: it can vanish on the
domains even for accepted `z` (see the counterexample). -/
theorem c7_z_outside_domains (chal : List F → Nat → F) (lde tru : List F)
    (h0 om g : F) (N L b fuel : Nat) (t t2 : Xcript F) (z : F)
    (hsome : sample_z_ood chal lde tru fuel t = some (z, t2))
    (hlde : lde = (List.range N).map (fun i => h0 * om ^ i))
    (htru : tru = (List.range L).map (fun i => g ^ i))
    (hg : g = om ^ b)
    (hom : om ^ N = 1)
    (hNL : N = L * b)
    (hL : 0 < L) (hN : 0 < N) :
    z ∉ lde ∧ z ∉ tru ∧
    (∀ m : Nat, ∀ x ∈ lde, x ≠ z * g ^ m) ∧
    (∀ m : Nat, ∀ x ∈ tru, x ≠ z * g ^ m) := by
  obtain ⟨hzl, hzt⟩ := sample_z_ood_not_mem chal lde tru fuel t t2 z hsome
  refine ⟨hzl, hzt, ?_, ?_⟩
  · intro m x hx hxe
    rw [hlde] at hx
    obtain ⟨i, hi, hxi⟩ := List.mem_map.mp hx
    have hgm : g ^ m = om ^ (b * m) := by rw [hg, ← pow_mul]
    have hc : b * m ≤ N * (b * m) := Nat.le_mul_of_pos_left _ hN
    have key : z = h0 * om ^ ((i + (N * (b * m) - b * m)) % N) := by
      calc z = z * (om ^ N) ^ (b * m) := by rw [hom, one_pow, mul_one]
        _ = z * om ^ (N * (b * m)) := by rw [← pow_mul]
        _ = z * (om ^ (b * m) * om ^ (N * (b * m) - b * m)) := by
              rw [← pow_add, Nat.add_sub_cancel' hc]
        _ = (z * om ^ (b * m)) * om ^ (N * (b * m) - b * m) := by ring
        _ = (z * g ^ m) * om ^ (N * (b * m) - b * m) := by rw [hgm]
        _ = x * om ^ (N * (b * m) - b * m) := by rw [← hxe]
        _ = (h0 * om ^ i) * om ^ (N * (b * m) - b * m) := by rw [← hxi]
        _ = h0 * om ^ (i + (N * (b * m) - b * m)) := by rw [mul_assoc, ← pow_add]
        _ = h0 * om ^ ((i + (N * (b * m) - b * m)) % N) := by rw [pow_cycle om N hom]
    apply hzl
    rw [hlde]
    exact List.mem_map.mpr
      ⟨(i + (N * (b * m) - b * m)) % N, List.mem_range.mpr (Nat.mod_lt _ hN), key.symm⟩
  · intro m x hx hxe
    rw [htru] at hx
    obtain ⟨i, hi, hxi⟩ := List.mem_map.mp hx
    have hgL : g ^ L = 1 := by
      rw [hg, ← pow_mul, show b * L = N from by rw [hNL, Nat.mul_comm], hom]
    have hc : m ≤ L * m := Nat.le_mul_of_pos_left _ hL
    have key : z = g ^ ((i + (L * m - m)) % L) := by
      calc z = z * (g ^ L) ^ m := by rw [hgL, one_pow, mul_one]
        _ = z * g ^ (L * m) := by rw [← pow_mul]
        _ = z * (g ^ m * g ^ (L * m - m)) := by
              rw [← pow_add, Nat.add_sub_cancel' hc]
        _ = (z * g ^ m) * g ^ (L * m - m) := by ring
        _ = x * g ^ (L * m - m) := by rw [← hxe]
        _ = g ^ i * g ^ (L * m - m) := by rw [← hxi]
        _ = g ^ (i + (L * m - m)) := by rw [← pow_add]
        _ = g ^ ((i + (L * m - m)) % L) := by rw [pow_cycle g L hgL]
    apply hzt
    rw [htru]
    exact List.mem_map.mpr
      ⟨(i + (L * m - m)) % L, List.mem_range.mpr (Nat.mod_lt _ hL), key.symm⟩

theorem c7_z_outside_domains_witness :
    sample_z_ood (fun _ _ => (6 : ZMod 13)) [2, 10, 11, 3] [1, 12] 1
      { absorbed := [], drawn := 0 } = some (6, { absorbed := [], drawn := 1 }) ∧
    ([2, 10, 11, 3] : List (ZMod 13)) = (List.range 4).map (fun i => 2 * (5 : ZMod 13) ^ i) ∧
    ([1, 12] : List (ZMod 13)) = (List.range 2).map (fun i => (12 : ZMod 13) ^ i) ∧
    (12 : ZMod 13) = 5 ^ 2 ∧ (5 : ZMod 13) ^ 4 = 1 ∧ 4 = 2 * 2 ∧
    (0 : Nat) < 2 ∧ (0 : Nat) < 4 ∧
    ((6 : ZMod 13) ∉ ([2, 10, 11, 3] : List (ZMod 13)) ∧
      (6 : ZMod 13) ∉ ([1, 12] : List (ZMod 13)) ∧
      (∀ m : Nat, ∀ x ∈ ([2, 10, 11, 3] : List (ZMod 13)), x ≠ 6 * (12 : ZMod 13) ^ m) ∧
      (∀ m : Nat, ∀ x ∈ ([1, 12] : List (ZMod 13)), x ≠ 6 * (12 : ZMod 13) ^ m)) :=
  ⟨by decide, by decide, by decide, by decide, by decide, by decide, by decide, by decide,
    c7_z_outside_domains (fun _ _ => (6 : ZMod 13)) [2, 10, 11, 3] [1, 12] 2 5 12 4 2 2 1
      { absorbed := [], drawn := 0 } { absorbed := [], drawn := 1 } 6
      (by decide) (by decide) (by decide) (by decide) (by decide) (by decide)
      (by decide) (by decide)⟩

/-- C7 counterexample: over `ZMod 13` with LDE coset `2 * <5>` (of size
`N = L * b = 2 * 2`, with `5^4 = 1` and trace subgroup `<12>`, `12 = 5^2`),
the sampler accepts `z = 6` — it lies outside both domains — yet
`z^2 = 10` lies in the LDE coset, so the DEEP divisor `X - z^2` vanishes at
the LDE point 10: the claim that `X - z^2` is never zero on those domains
is false. -/
theorem c7_counterexample :
    sample_z_ood (fun _ _ => (6 : ZMod 13)) [2, 10, 11, 3] [1, 12] 1
      { absorbed := [], drawn := 0 } = some (6, { absorbed := [], drawn := 1 }) ∧
    ([2, 10, 11, 3] : List (ZMod 13)) = (List.range 4).map (fun i => 2 * (5 : ZMod 13) ^ i) ∧
    ([1, 12] : List (ZMod 13)) = (List.range 2).map (fun i => (12 : ZMod 13) ^ i) ∧
    (12 : ZMod 13) = 5 ^ 2 ∧ (5 : ZMod 13) ^ 4 = 1 ∧
    (6 : ZMod 13) ∉ ([2, 10, 11, 3] : List (ZMod 13)) ∧
    (6 : ZMod 13) ∉ ([1, 12] : List (ZMod 13)) ∧
    (6 : ZMod 13) * 6 ∈ ([2, 10, 11, 3] : List (ZMod 13)) ∧
    evalP [-(6 * 6 : ZMod 13), 1] 10 = 0 ∧
    (10 : ZMod 13) ∈ ([2, 10, 11, 3] : List (ZMod 13)) := by
  decide

end StarkProver
